import Mathlib

/-!
Verification of the hierarchical text-structure recovery engine of
`scripts/extract-ministry-from-ichiran.py`.

The Python program is embedded shallowly: strings are `List Char`
(`Str`), each Python helper becomes a Lean function of the same name,
and the per-block classifier of `parse_pdf` becomes an explicit state
machine over `ParseState`.  Regular-expression tests are translated to
the equivalent character-list computations; the translation of every
regex is justified in the doc comment of its function.  Python `\s` is
modelled by the whitespace characters that can occur in this document
(ASCII whitespace and the ideographic space), and `$` is modelled as
true end-of-string, which agrees with Python on the inputs that reach
these functions because normalized lines contain no newline.
-/

/-- Strings are lists of characters (the embedding of Python `str`). -/
abbrev Str := List Char

/-- Whitespace in the sense of Python `\s` / `str.strip()`, restricted to
the characters occurring in this document class: ASCII whitespace and
the full-width ideographic space U+3000. -/
def isSpaceChar (c : Char) : Bool :=
  c = ' ' || c = '\t' || c = '\n' || c = '\r' ||
  c = (Char.ofNat 0x0b) || c = (Char.ofNat 0x0c) || c = (Char.ofNat 0x3000) ||
  c = (Char.ofNat 0xa0)

/-- ASCII decimal digit. -/
def isAsciiDigit (c : Char) : Bool := '0' ≤ c && c ≤ '9'

/-- Full-width decimal digit ０-９ (U+FF10 – U+FF19). -/
def isFwDigit (c : Char) : Bool := (Char.ofNat 0xff10) ≤ c && c ≤ (Char.ofNat 0xff19)

/-- Python `\d` (Unicode decimal digit) restricted to the digits occurring
in this document: ASCII and full-width. -/
def pyIsDigit (c : Char) : Bool := isAsciiDigit c || isFwDigit c

/-- The character class `[0-9０-９]` used by `strip_count` and the
count-suffix searches. -/
def isCountDigit (c : Char) : Bool := isAsciiDigit c || isFwDigit c

/-- Python `str.strip()`: drop whitespace from both ends. -/
def pyStrip (s : Str) : Str :=
  ((s.dropWhile isSpaceChar).reverse.dropWhile isSpaceChar).reverse

/-- `re.sub(r'\s+', '', s)`: delete every whitespace character. -/
def removeSpaces (s : Str) : Str := s.filter (fun c => !isSpaceChar c)

/-- Python `s.split(sep)` for a one-character separator: split keeping
empty pieces; the result is always non-empty. -/
def pySplit (sep : Char) : Str → List Str
  | [] => [[]]
  | c :: rest =>
    if c = sep then [] :: pySplit sep rest
    else
      match pySplit sep rest with
      | h :: t => (c :: h) :: t
      | [] => [[c]]

/-- Python `s.count(c)` for a single character. -/
def countChar (c : Char) (s : Str) : Nat :=
  (s.filter (fun d => decide (d = c))).length

/-- `l₁` is a leading part of `l₂` (used to model substring search). -/
def listIsLeadingPart : Str → Str → Bool
  | [], _ => true
  | _ :: _, [] => false
  | p :: ps, c :: cs => decide (p = c) && listIsLeadingPart ps cs

/-- Python `pat in s` (substring test). -/
def containsSub (pat : Str) : Str → Bool
  | [] => decide (pat = [])
  | c :: rest => listIsLeadingPart pat (c :: rest) || containsSub pat rest

/-- Worker for `replaceAll`: replaces every non-overlapping occurrence of
the non-empty pattern `p1 :: ps` by nothing, scanning left to right as
Python `str.replace` does.  `fuel ≥ s.length` guarantees the fuel is
never exhausted. -/
def replaceAllNE (p1 : Char) (ps : Str) : Nat → Str → Str
  | _, [] => []
  | 0, s => s
  | Nat.succ fuel, c :: rest =>
    if listIsLeadingPart (p1 :: ps) (c :: rest) then
      replaceAllNE p1 ps fuel (rest.drop ps.length)
    else c :: replaceAllNE p1 ps fuel rest

/-- Python `s.replace(pat, '')` for a non-empty pattern (the program only
ever replaces the two-character pattern 地方). -/
def replaceAll (pat s : Str) : Str :=
  match pat with
  | [] => s
  | p1 :: ps => replaceAllNE p1 ps s.length s

/-- If `t` occurs in `l`, the part of `l` before the first occurrence. -/
def splitAtFirst (t : Char) (l : Str) : Option Str :=
  if t ∈ l then some (l.takeWhile (fun x => !decide (x = t))) else none

/-- `re.search(r'[0-9０-９]+$', s)`: the maximal trailing digit run
(`[]` when there is none, matching `cm.group() if cm else ''`). -/
def trailingDigits (s : Str) : Str := (s.reverse.takeWhile isCountDigit).reverse

/-- `strip_count`: `re.sub(r'[0-9０-９]+$', '', s).strip()` — remove the
trailing run of ASCII/full-width digits, then strip. -/
def strip_count (s : Str) : Str := pyStrip (s.reverse.dropWhile isCountDigit).reverse

/-- Worker for `removeParen`: deletes every occurrence of
`op [^cl]{1,30} cl` exactly as `re.sub` does (leftmost, non-overlapping;
a run of more than 30 non-closing characters, or a closing character
immediately after `op`, leaves the `op` in place, as regex backtracking
does).  `fuel ≥ s.length` guarantees the fuel is never exhausted. -/
def removeParenAux (op cl : Char) : Nat → Str → Str
  | _, [] => []
  | 0, s => s
  | Nat.succ fuel, c :: rest =>
    if c = op then
      let run := rest.takeWhile (fun d => !decide (d = cl))
      if 1 ≤ run.length && run.length ≤ 30 && run.length < rest.length then
        removeParenAux op cl fuel (rest.drop (run.length + 1))
      else c :: removeParenAux op cl fuel rest
    else c :: removeParenAux op cl fuel rest

/-- `re.sub(op ++ '[^cl]{1,30}' ++ cl, '', s)` for a paren pair. -/
def removeParen (op cl : Char) (s : Str) : Str := removeParenAux op cl s.length s

/-- `normalize_line`: remove all whitespace, remove full-width and
half-width parenthetical annotations of 1–30 characters, then strip. -/
def normalize_line (line : Str) : Str :=
  pyStrip (removeParen '(' ')' (removeParen '（' '）' (removeSpaces line)))

/-- Last character of `s` is in `cs` (embedding of `re.search(r'[…]$', s)`). -/
def lastCharIn (s : Str) (cs : List Char) : Bool :=
  match s.getLast? with
  | some c => cs.contains c
  | none => false

/-- `ORG_ENDS = re.compile(r'[局部所署台庁会校区]$')`. -/
def ORG_ENDS (s : Str) : Bool :=
  lastCharIn s ['局', '部', '所', '署', '台', '庁', '会', '校', '区']

/-- `SECTION_ENDINGS = re.compile(r'[課室班係官]$')`. -/
def SECTION_ENDS (s : Str) : Bool :=
  lastCharIn s ['課', '室', '班', '係', '官']

/-- `_KANJI_NUM` lookup on a single kanji digit 一-九. -/
def kanjiNumChar? (c : Char) : Option Nat :=
  if c = '一' then some 1 else if c = '二' then some 2 else if c = '三' then some 3
  else if c = '四' then some 4 else if c = '五' then some 5 else if c = '六' then some 6
  else if c = '七' then some 7 else if c = '八' then some 8 else if c = '九' then some 9
  else none

/-- `_KANJI_NUM.get(s, default)` with string key: keys are one-character
strings, so a key of any other length misses. -/
def KANJI_NUM : Str → Option Nat
  | [c] => kanjiNumChar? c
  | _ => none

/-- `_ARABIC_KANJI`: the closed table 1 … 12 → 一 … 十二. -/
def ARABIC_KANJI (n : Nat) : Option Str :=
  match n with
  | 1 => some ['一'] | 2 => some ['二'] | 3 => some ['三'] | 4 => some ['四']
  | 5 => some ['五'] | 6 => some ['六'] | 7 => some ['七'] | 8 => some ['八']
  | 9 => some ['九'] | 10 => some ['十'] | 11 => some ['十', '一']
  | 12 => some ['十', '二'] | _ => none

/-- `_kanji_to_int`: kanji numeral (一 … 十二 and similar forms) to `Nat`,
with the same defaulting behaviour as the Python dictionary lookups. -/
def kanji_to_int (s : Str) : Nat :=
  match KANJI_NUM s with
  | some n => n
  | none =>
    if s = ['十'] then 10
    else if s.head? = some '十' then 10 + (KANJI_NUM (s.drop 1)).getD 0
    else if s.getLast? = some '十' then (s.head?.bind kanjiNumChar?).getD 1 * 10
    else if '十' ∈ s then
      (KANJI_NUM (s.takeWhile (fun c => !decide (c = '十')))).getD 1 * 10 +
        (KANJI_NUM ((s.dropWhile (fun c => !decide (c = '十'))).drop 1)).getD 0
    else 0

/-- Kanji-digit character class `[一二三四五六七八九十]`. -/
def isKanjiDigitChar (c : Char) : Bool :=
  c = '一' || c = '二' || c = '三' || c = '四' || c = '五' || c = '六' ||
  c = '七' || c = '八' || c = '九' || c = '十'

/-- `re.match(r'^第([一二三四五六七八九十]+)～第([一二三四五六七八九十]+)$', s)`:
the two kanji-digit groups when the whole string is a range token.
`～` is not in the digit class, so the greedy groups are exactly the
maximal digit runs. -/
def rangeMatch (s : Str) : Option (Str × Str) :=
  match s with
  | '第' :: rest =>
    let r1 := rest.takeWhile isKanjiDigitChar
    (match rest.drop r1.length with
     | '～' :: '第' :: rest2 =>
       let r2 := rest2.takeWhile isKanjiDigitChar
       if r1 ≠ [] ∧ r2 ≠ [] ∧ rest2.drop r2.length = [] then some (r1, r2) else none
     | _ => none)
  | _ => none

/-- `_expand_item`: a stripped item is either a range token, expanded to
every in-vocabulary ordinal of the inclusive interval, or a literal
(dropped when empty). -/
def expand_item (item : Str) : List Str :=
  let it := pyStrip item
  match rangeMatch it with
  | some (a, b) =>
    (List.range' (kanji_to_int a) (kanji_to_int b + 1 - kanji_to_int a)).filterMap
      (fun i => (ARABIC_KANJI i).map (fun k => '第' :: k))
  | none => if it = [] then [] else [it]

/-- `expand_angle_content`: split the bracket content on 、 and expand
each item in order. -/
def expand_angle_content (text : Str) : List Str :=
  ((pySplit '、' text).map expand_item).flatten

/-- `extract_bureaus_and_sections`: split the bracket text on 、, strip
each item, drop empties; keep an item when, after removing whitespace
and full-width parenthetical annotations, it is non-empty, ends in a
section-class suffix and has length ≥ 2. -/
def extract_bureaus_and_sections (bracket_text : Str) : List Str :=
  (((pySplit '、' bracket_text).map pyStrip).filter (fun s => decide (s ≠ []))).filterMap
    (fun item =>
      let ic := pyStrip (removeParen '（' '）' (removeSpaces item))
      if ic ≠ [] ∧ SECTION_ENDS ic = true ∧ 2 ≤ ic.length then some ic else none)

/-- The page-number shape `re.match(r'^\d{1,3}$', s)`: one to three
digits and nothing else. -/
def isPageNumber (s : Str) : Bool :=
  s.all pyIsDigit && decide (1 ≤ s.length) && decide (s.length ≤ 3)

/-- Full-width digit class `[２３４５６７８９１]` of the forced-new
pattern (note: ０ is absent from this class in the source). -/
def isFwNonzeroDigit (c : Char) : Bool :=
  c = '１' || c = '２' || c = '３' || c = '４' || c = '５' ||
  c = '６' || c = '７' || c = '８' || c = '９'

/-- `FORCE_NEW = re.compile(r'^(\d+\s|[（(]\d|[２３４５６７８９１]+\s|＜|【|\d+$)')`:
a leading digit run followed by whitespace, an opening paren followed by
a digit, a leading full-width-digit run followed by whitespace, a
leading ＜ or 【, or a digits-only line.  The digit classes exclude the
whitespace characters, so the greedy `+` runs are the maximal runs. -/
def is_forced_new (s : Str) : Bool :=
  (let run := s.takeWhile pyIsDigit
   decide (run ≠ []) &&
     (match s.drop run.length with
      | c :: _ => isSpaceChar c
      | [] => false)) ||
  (match s with
   | c :: d :: _ => (c = '（' || c = '(') && pyIsDigit d
   | _ => false) ||
  (let run := s.takeWhile isFwNonzeroDigit
   decide (run ≠ []) &&
     (match s.drop run.length with
      | c :: _ => isSpaceChar c
      | [] => false)) ||
  s.head? = some '＜' || s.head? = some '【' ||
  (decide (s ≠ []) && s.all pyIsDigit)

/-- State of the line-joining loop of `join_continuation_lines`. -/
structure JoinState where
  blocks : List Str
  current : Option Str
  open_brackets : Int
deriving DecidableEq

/-- One iteration of the loop body of `join_continuation_lines`. -/
def joinStep (st : JoinState) (raw_line : Str) : JoinState :=
  let stripped := pyStrip raw_line
  if stripped = [] then st
  else if isPageNumber stripped then st
  else
    let has_indent := decide (raw_line.head? = some ' ') || decide (raw_line.head? = some '\t')
    match st.current with
    | none =>
      { blocks := st.blocks, current := some stripped,
        open_brackets := (countChar '［' stripped : Int) - (countChar '］' stripped : Int) }
    | some cur =>
      if (has_indent || is_forced_new stripped) &&
         !(decide (st.open_brackets > 0) && !has_indent) then
        { blocks := st.blocks ++ [cur], current := some stripped,
          open_brackets := (countChar '［' stripped : Int) - (countChar '］' stripped : Int) }
      else
        { blocks := st.blocks, current := some (cur ++ stripped),
          open_brackets :=
            max 0 (st.open_brackets + (countChar '［' stripped : Int)
                     - (countChar '］' stripped : Int)) }

/-- `join_continuation_lines`: fold the loop body over the raw lines and
flush the final current block (Python appends `current` only when it is
a non-empty string). -/
def join_continuation_lines (raw_text : Str) : List Str :=
  let st := (pySplit '\n' raw_text).foldl joinStep ⟨[], none, 0⟩
  match st.current with
  | some cur => if cur ≠ [] then st.blocks ++ [cur] else st.blocks
  | none => st.blocks

/-- Open minus close count of full-width angle brackets of a page. -/
def angleDiff (s : Str) : Int :=
  (countChar '＜' s : Int) - (countChar '＞' s : Int)

/-- The page-merging loop of `parse_pdf` (lines 184–193): while the
running angle-bracket balance of the page under construction is
positive and input remains, absorb the next raw page (joined with a
newline); otherwise emit and restart. -/
def mergePagesAux (cur : Str) (opn : Int) : List Str → List Str
  | [] => [cur]
  | p :: rest =>
    if opn > 0 then mergePagesAux (cur ++ '\n' :: p) (opn + angleDiff p) rest
    else cur :: mergePagesAux p (angleDiff p) rest

/-- Page segmentation with angle-bracket-aware merging. -/
def mergePages : List Str → List Str
  | [] => []
  | p :: rest => mergePagesAux p (angleDiff p) rest

/-- Output record of the classifier (a row of `parse_pdf`; the
`bureau_alias` field is added later by the alias post-pass). -/
structure Row where
  ministry : Str
  category : Str
  bureau : Str
  «section» : Str
  expanded_from : Str
deriving DecidableEq

/-- Row constructor shorthand. -/
def mkRow (m c b s e : Str) : Row := ⟨m, c, b, s, e⟩

/-- The mutable scan state of `parse_pdf`: the `ParseContext`
(`current_ministry`, `current_category`) and the `ExpansionState`
(`prev_bureau_base`, `prev_bureau_full`, `last_prefixes`,
`last_count_str`). -/
structure ParseState where
  ministry : Str
  category : Str
  prev_bureau_base : Str
  prev_bureau_full : Str
  last_prefixes : List Str
  last_count_str : Str
deriving DecidableEq

/-- The all-empty initial state. -/
def initState : ParseState := ⟨[], [], [], [], [], []⟩

/-- `re.match(r'^＜(.+?)＞', norm)`: the lazy group is the shortest
non-empty run after ＜ that is followed by ＞, i.e. the first character
after ＜ together with everything up to the first ＞ after it. -/
def angleMatch (norm : Str) : Option Str :=
  match norm with
  | '＜' :: c :: rest =>
    (match splitAtFirst '＞' rest with
     | some before => some (c :: before)
     | none => none)
  | _ => none

/-- Marker class `[XⅠⅡⅢⅣⅤⅥⅦⅧⅨⅩⅪⅫxivl\d]` of the ministry header. -/
def isHeaderMarkChar (c : Char) : Bool :=
  c = 'X' || c = 'x' || c = 'i' || c = 'v' || c = 'l' ||
  c = 'Ⅰ' || c = 'Ⅱ' || c = 'Ⅲ' || c = 'Ⅳ' || c = 'Ⅴ' || c = 'Ⅵ' ||
  c = 'Ⅶ' || c = 'Ⅷ' || c = 'Ⅸ' || c = 'Ⅹ' || c = 'Ⅺ' || c = 'Ⅻ' ||
  pyIsDigit c

/-- `re.match(r'^[XⅠ…Ⅻxivl\d]+(.{2,20}[省庁院府])$', norm)`.  The group
matches any 3–21 character remainder ending in a top-level suffix; the
greedy marker run backtracks, so the match succeeds with the longest
marker run `a` such that `1 ≤ a ≤ maxrun` and `3 ≤ n − a ≤ 21`; the
group is the remainder after those `a` characters. -/
def ministryHeaderMatch (norm : Str) : Option Str :=
  let maxA := (norm.takeWhile isHeaderMarkChar).length
  let n := norm.length
  let a := min maxA (n - 3)
  if 1 ≤ a ∧ n - a ≤ 21 ∧ lastCharIn norm ['省', '庁', '院', '府'] = true then
    some (norm.drop a)
  else none

/-- `re.match(r'^本[省庁]$', candidate)`. -/
def hon_check (s : Str) : Bool := decide (s = ['本', '省']) || decide (s = ['本', '庁'])

/-- The bare-ministry test (lines 264–266): `^.{2,15}[省庁院府]$`, no
full-width paren, no comma, and the first character is not in
`[本１２３４５６７８９(（\d]`. -/
def bareMinistryTest (norm : Str) : Bool :=
  decide (3 ≤ norm.length) && decide (norm.length ≤ 16) &&
  lastCharIn norm ['省', '庁', '院', '府'] &&
  !(norm.contains '（') && !(norm.contains '、') &&
  !(match norm.head? with
    | some c => c = '本' || isFwNonzeroDigit c || c = '(' || c = '（' || pyIsDigit c
    | none => false)

/-- Category-marker class `[ＡＢＣＤＥＦＧＨＩａｂｃｄｅｆA-I]`. -/
def isCategoryMark (c : Char) : Bool :=
  c = 'Ａ' || c = 'Ｂ' || c = 'Ｃ' || c = 'Ｄ' || c = 'Ｅ' || c = 'Ｆ' ||
  c = 'Ｇ' || c = 'Ｈ' || c = 'Ｉ' ||
  c = 'ａ' || c = 'ｂ' || c = 'ｃ' || c = 'ｄ' || c = 'ｅ' || c = 'ｆ' ||
  ('A' ≤ c && c ≤ 'I')

/-- `re.match(r'^[Ａ…A-I](.{2,15})$', norm)`: marker character followed
by a 2–15 character group reaching the end. -/
def categoryMatch (norm : Str) : Option Str :=
  match norm with
  | c :: rest =>
    if isCategoryMark c ∧ 2 ≤ rest.length ∧ rest.length ≤ 15 then some rest else none
  | [] => none

/-- Worker for `bracketMatch`: the lazy first group grows until a ［ is
found whose suffix contains a ］ at distance ≥ 2; `acc` is the reversed
group candidate. -/
def bmAux (acc : Str) : Str → Option (Str × Str)
  | [] => none
  | c :: rest =>
    if c = '［' ∧ acc ≠ [] then
      match rest with
      | [] => bmAux (c :: acc) rest
      | d :: rest2 =>
        (match splitAtFirst '］' rest2 with
         | some before => some (acc.reverse, d :: before)
         | none => bmAux (c :: acc) rest)
    else bmAux (c :: acc) rest

/-- `re.match(r'^(.+?)［(.+?)］(.*)$', norm)`: the two lazy groups (the
trailing `(.*)` group is never read by the program).  Group 1 is the
non-empty text before the first ［ that is followed, at distance at
least two, by a ］; group 2 is the non-empty text from after that ［ up
to the first subsequent ］. -/
def bracketMatch (norm : Str) : Option (Str × Str) := bmAux [] norm

/-- The bare-bureau guard (line 326–330): the normalized block ends in
`[局部所署館庁校区]`, or strips to a different string ending in an
`ORG_ENDS` character; length 2–25; no full-width paren; no comma. -/
def bareGuard (norm : Str) : Bool :=
  (let cs := strip_count norm
   lastCharIn norm ['局', '部', '所', '署', '館', '庁', '校', '区'] ||
     (decide (cs ≠ norm) && ORG_ENDS cs)) &&
  decide (2 ≤ norm.length) && decide (norm.length ≤ 25) &&
  !(norm.contains '（') && !(norm.contains '、')

/-- The bare-bureau rule (lines 324–357): count-suffix check (sibling
carry-over or stash), then the unconditional literal entry. -/
def bareRule (st : ParseState) (norm : Str) (next_is_angle : Bool) : ParseState × List Row :=
  if bareGuard norm then
    let count_stripped := strip_count norm
    let stRows :=
      if decide (count_stripped ≠ norm) && ORG_ENDS count_stripped then
        let cur_count := trailingDigits norm
        if !next_is_angle && decide (st.last_prefixes ≠ []) &&
           decide (cur_count ≠ []) && decide (cur_count = st.last_count_str) then
          ({ st with last_count_str := [] },
           st.last_prefixes.map
             (fun pfx => mkRow st.ministry st.category (pfx ++ count_stripped) [] norm))
        else
          ({ st with prev_bureau_base := count_stripped, prev_bureau_full := norm }, [])
      else (st, [])
    (stRows.1, stRows.2 ++ [mkRow st.ministry st.category norm [] []])
  else (st, [])

/-- The bureau-with-bracketed-sections rule (lines 280–322), falling
through to the bare-bureau rule when the bracket pattern misses:
count-suffix check on the pre-bracket text, then the literal bureau
entry (when its length is in [2,35]), then one entry per qualifying
section. -/
def bracketAndBare (st : ParseState) (norm : Str) (next_is_angle : Bool) :
    ParseState × List Row :=
  match bracketMatch norm with
  | some (g1, g2) =>
    let bureau_raw := pyStrip g1
    let sections := extract_bureaus_and_sections g2
    let count_stripped := strip_count bureau_raw
    let stRows :=
      if decide (count_stripped ≠ bureau_raw) && ORG_ENDS count_stripped then
        let cur_count := trailingDigits bureau_raw
        if !next_is_angle && decide (st.last_prefixes ≠ []) &&
           decide (cur_count ≠ []) && decide (cur_count = st.last_count_str) then
          ({ st with last_count_str := [] },
           st.last_prefixes.map
             (fun pfx => mkRow st.ministry st.category (pfx ++ count_stripped) [] bureau_raw))
        else
          ({ st with prev_bureau_base := count_stripped, prev_bureau_full := bureau_raw }, [])
      else (st, [])
    let litRows :=
      if decide (bureau_raw ≠ []) && decide (2 ≤ bureau_raw.length) &&
         decide (bureau_raw.length ≤ 35) then
        [mkRow st.ministry st.category bureau_raw [] []]
      else []
    let secRows := sections.map (fun sec => mkRow st.ministry st.category bureau_raw sec [])
    (stRows.1, stRows.2 ++ litRows ++ secRows)
  | none => bareRule st norm next_is_angle

/-- Rules 2–7 of the classifier, reached after the angle branch and the
unconditional clearing of `prev_bureau_*`: ministry header, bare
ministry line, category marker (falling through when the category text
lacks a category-class suffix), then the bureau rules. -/
def restOfRules (st : ParseState) (norm : Str) (next_is_angle : Bool) :
    ParseState × List Row :=
  match ministryHeaderMatch norm with
  | some candidate =>
    if hon_check candidate then (st, [])
    else ({ st with ministry := candidate, category := [] }, [])
  | none =>
    if bareMinistryTest norm then ({ st with ministry := norm, category := [] }, [])
    else
      match categoryMatch norm with
      | some cat_text =>
        if lastCharIn cat_text ['局', '部', '会', '機', '関'] then
          ({ st with category := cat_text }, [])
        else bracketAndBare st norm next_is_angle
      | none => bracketAndBare st norm next_is_angle

/-- The whole per-block classifier (loop body of `parse_pdf` for one
non-empty normalized block): the angle-bracket expansion branch when it
is actionable, otherwise the unconditional clearing of `prev_bureau_*`
followed by the remaining rules. -/
def classifyBlock (st : ParseState) (norm : Str) (next_is_angle : Bool) :
    ParseState × List Row :=
  let stR : ParseState := { st with prev_bureau_base := [], prev_bureau_full := [] }
  match angleMatch norm with
  | some content =>
    if st.prev_bureau_base ≠ [] then
      ({ st with last_prefixes := expand_angle_content content,
                 last_count_str := trailingDigits st.prev_bureau_full,
                 prev_bureau_base := [], prev_bureau_full := [] },
       (expand_angle_content content).map
         (fun pfx => mkRow st.ministry st.category (pfx ++ st.prev_bureau_base) []
            st.prev_bureau_full))
    else restOfRules stR norm next_is_angle
  | none => restOfRules stR norm next_is_angle

/-- First non-empty normalized form of a block list (`''` when none),
used for the classifier's one-block lookahead. -/
def firstNonemptyNorm : List Str → Str
  | [] => []
  | b :: rest =>
    let nn := normalize_line b
    if nn ≠ [] then nn else firstNonemptyNorm rest

/-- The block loop of `parse_pdf` over one page: skip blocks whose
normalization is empty; compute the lookahead `next_norm` from the
remaining blocks, falling back to the first non-empty normalized block
of the next page; classify; thread the state. -/
def processBlocks (st : ParseState) (blocks : List Str) (nextPageFirst : Str) :
    ParseState × List Row :=
  match blocks with
  | [] => (st, [])
  | b :: rest =>
    let norm := normalize_line b
    if norm = [] then processBlocks st rest nextPageFirst
    else
      let nn := firstNonemptyNorm rest
      let next_norm := if nn ≠ [] then nn else nextPageFirst
      let next_is_angle := next_norm.head? = some '＜'
      let res1 := classifyBlock st norm next_is_angle
      let res2 := processBlocks res1.1 rest nextPageFirst
      (res2.1, res1.2 ++ res2.2)

/-- The page loop of `parse_pdf`: per page, join continuation lines and
run the block loop, with the cross-page lookahead taken from the next
page's joined blocks. -/
def processPages (st : ParseState) : List Str → List Row
  | [] => []
  | p :: rest =>
    let blocks := join_continuation_lines p
    let nextFirst :=
      match rest with
      | [] => []
      | q :: _ => firstNonemptyNorm (join_continuation_lines q)
    let res := processBlocks st blocks nextFirst
    res.2 ++ processPages res.1 rest

/-- `parse_pdf` on an already-extracted ordered page sequence: merge
pages on unbalanced angle brackets, then scan. -/
def parse_pdf (pages : List Str) : List Row := processPages initState (mergePages pages)

/-- The dedup key `(ministry, category, bureau, section)`. -/
def rowKey (r : Row) : Str × Str × Str × Str := (r.ministry, r.category, r.bureau, r.«section»)

/-- The dedup loop of `main` (lines 366–372): keep a row when its key is
unseen and its ministry is non-empty; only kept rows enter `seen`. -/
def dedupAux (seen : List (Str × Str × Str × Str)) : List Row → List Row
  | [] => []
  | r :: rest =>
    if rowKey r ∉ seen ∧ r.ministry ≠ [] then r :: dedupAux (rowKey r :: seen) rest
    else dedupAux seen rest

/-- Deduplication with empty-ministry filtering, in first-seen order. -/
def dedup (rows : List Row) : List Row := dedupAux [] rows

/-- A published record: a parse row plus the `bureau_alias` column added
by the alias post-pass. -/
structure RowA extends Row where
  bureau_alias : Str
deriving DecidableEq

/-- The literal 地方 ("regional"). -/
def chihou : Str := ['地', '方']

/-- The alias post-pass of `main` (lines 386–393) for one record, with
the canonical-name existence service abstracted as `ex`: when
`expanded_from` is non-empty and the bureau contains 地方, the candidate
is the bureau with 地方 removed, and it becomes the alias exactly when
it differs from the bureau, exists in the canonical set, and the bureau
does not. -/
def assignAlias (ex : Str → Bool) (r : Row) : RowA :=
  let aliasVal :=
    if decide (r.expanded_from ≠ []) && containsSub chihou r.bureau then
      let candidate := replaceAll chihou r.bureau
      if decide (candidate ≠ r.bureau) && ex candidate && !ex r.bureau then candidate
      else []
    else []
  { toRow := r, bureau_alias := aliasVal }

/-- The core engine API of the specification:
`recover(pages, canonical_lookup)` — parse, dedup, then assign aliases. -/
def recover (pages : List Str) (ex : Str → Bool) : List RowA :=
  (dedup (parse_pdf pages)).map (assignAlias ex)

/-! ## Concrete inputs used by the claim theorems and witnesses -/

/-- The two raw scanner lines of the continuation-joining test. -/
def c5raw : Str := ("  大 臣 官 房 ［ 官 房 長\n、 公 文 書 監 理 官 ］").toList

/-- The joined block of `c5raw`. -/
def c5block : Str := ("大 臣 官 房 ［ 官 房 長、 公 文 書 監 理 官 ］").toList

/-- The normalized form of `c5block`. -/
def c5norm : Str := ("大臣官房［官房長、公文書監理官］").toList

/-- A joining state with an unclosed ［: the current block is あ［ with
bracket counter 1. -/
def c3state : JoinState := ⟨[], some (("あ［").toList), 1⟩

/-- Raw text whose first line opens a ［ and whose second line is
indented. -/
def c3raw : Str := ("あ［\n い").toList

/-- A one-page input whose second block is the bracket line 地方［総務課］,
preceded by a ministry header. -/
def c7pages : List Str := [("Ⅰ外務省\n 地方［総務課］").toList]

/-- A canonical-name existence service that knows no names. -/
def c7ex : Str → Bool := fun _ => false

/-- The first published record of `recover c7pages c7ex`. -/
def c7row : RowA := ⟨⟨("外務省").toList, [], ("地方").toList, [], []⟩, []⟩

/-- C5: the raw lines `"  大 臣 官 房 ［ 官 房 長"` and
`"、 公 文 書 監 理 官 ］"` join into one block normalizing to
`大臣官房［官房長、公文書監理官］`, and classifying that block emits
exactly one bureau entry (bureau 大臣官房, empty section) and exactly
one section entry (section 公文書監理官): 官房長 is excluded because 長
is not a section-class suffix, while 公文書監理官 ends in 官 and has
length ≥ 2. -/
theorem extract_C5_continuation_and_sections :
    join_continuation_lines c5raw = [c5block] ∧
    normalize_line c5block = c5norm ∧
    classifyBlock initState c5norm false =
      (initState,
       [mkRow [] [] (("大臣官房").toList) [] [],
        mkRow [] [] (("大臣官房").toList) (("公文書監理官").toList) []]) := by
  decide

/-- C3 counterexample: with the current block あ［ and bracket counter 1,
the next raw line ` い` is non-empty and not a page number, yet because
it is indented the joiner starts a new block instead of appending it —
`join_continuation_lines` on the two lines yields the two blocks あ［
and い, refuting "appended … regardless of that line's indentation". -/
theorem extract_C3_counterexample :
    c3state.open_brackets > 0 ∧
    pyStrip ((" い").toList) ≠ [] ∧
    isPageNumber (pyStrip ((" い").toList)) = false ∧
    joinStep c3state ((" い").toList) = ⟨[("あ［").toList], some (("い").toList), 0⟩ ∧
    join_continuation_lines c3raw = [("あ［").toList, ("い").toList] := by
  decide

/-- C4 counterexample: the single input page ＞ is emitted unchanged with
zero ＜ and one ＞ — an emitted page with unequal angle-bracket counts,
refuting "every page emitted … has an equal number of ＜ and ＞". -/
theorem extract_C4_counterexample :
    mergePages [['＞']] = [['＞']] ∧
    countChar '＜' ['＞'] = 0 ∧ countChar '＞' ['＞'] = 1 := by
  decide

/-- C7 counterexample: on `c7pages` with an empty canonical set, the first
published record has bureau 地方 and empty `expanded_from`; its
`bureau_alias` (the empty string) *equals* the candidate obtained by
removing 地方 from the bureau (also empty), although none of the
claim's conditions hold — so "bureau_alias equals the candidate if and
only if …" fails in the only-if direction on a reachable record. -/
theorem extract_C7_counterexample :
    (recover c7pages c7ex).head? = some c7row ∧
    c7row.bureau_alias = replaceAll chihou c7row.bureau ∧
    ¬ (c7row.expanded_from ≠ [] ∧ containsSub chihou c7row.bureau = true ∧
       c7ex (replaceAll chihou c7row.bureau) = true ∧ c7ex c7row.bureau = false) := by
  decide

/-- C2: when the normalized block starts with an angle-bracket pair and a
bureau base is pending, the classifier emits one entry per expanded
prefix in list order (bureau = prefix + base, empty section,
`expanded_from` = the full pending form), records the prefix list as
`last_prefixes`, takes `last_count_str` from the digit suffix of
`prev_bureau_full`, and clears `prev_bureau_base`/`prev_bureau_full`. -/
theorem extract_C2_angle_expansion (st : ParseState) (norm content : Str) (nia : Bool)
    (h : angleMatch norm = some content) (hp : st.prev_bureau_base ≠ []) :
    classifyBlock st norm nia =
      ({ st with last_prefixes := expand_angle_content content,
                 last_count_str := trailingDigits st.prev_bureau_full,
                 prev_bureau_base := [], prev_bureau_full := [] },
       (expand_angle_content content).map
         (fun pfx => mkRow st.ministry st.category (pfx ++ st.prev_bureau_base) []
            st.prev_bureau_full)) := by
  simp [classifyBlock, h, hp]

/-- The pending state of the range-expansion test: base 防衛局, full form
九州防衛局１. -/
def c2state : ParseState :=
  ⟨[], [], ("防衛局").toList, ("九州防衛局１").toList, [], []⟩

/-- Witness for C2 at the concrete input of the claim: content 第一～第三
with pending base 防衛局 and full form 九州防衛局１ yields exactly the
three bureaus 第一防衛局, 第二防衛局, 第三防衛局, each expanded from
九州防衛局１, and `last_count_str` becomes １. -/
theorem extract_C2_witness :
    classifyBlock c2state (("＜第一～第三＞").toList) false =
      (⟨[], [], [], [],
        [("第一").toList, ("第二").toList, ("第三").toList], ("１").toList⟩,
       [mkRow [] [] (("第一防衛局").toList) [] (("九州防衛局１").toList),
        mkRow [] [] (("第二防衛局").toList) [] (("九州防衛局１").toList),
        mkRow [] [] (("第三防衛局").toList) [] (("九州防衛局１").toList)]) :=
  (extract_C2_angle_expansion c2state (("＜第一～第三＞").toList)
    (("第一～第三").toList) false (by decide) (by decide)).trans (by decide)

/-- C10: the engine is deterministic — two runs on equal page sequences
with extensionally equal canonical-name lookups produce identical
output record sequences. -/
theorem extract_C10_deterministic (pages1 pages2 : List Str) (ex1 ex2 : Str → Bool)
    (hp : pages1 = pages2) (hex : ∀ n, ex1 n = ex2 n) :
    recover pages1 ex1 = recover pages2 ex2 := by
  subst hp
  rw [funext hex]

/-- Witness for C10: two runs on `c7pages` with two syntactically
different but extensionally equal lookups agree. -/
theorem extract_C10_witness :
    recover c7pages c7ex = recover c7pages (fun n => c7ex n) :=
  extract_C10_deterministic c7pages c7pages c7ex (fun n => c7ex n) rfl (fun _ => rfl)

/-- C3 (amended): while the current block's bracket counter is positive,
a non-empty, non-page-number raw line that is *not indented* is
appended to the current block — no new block begins — regardless of
whether it matches a forced-new shape; (the original claim's
"regardless of indentation" fails: an indented line starts a new block,
see the counterexample). -/
theorem extract_C3_amended (st : JoinState) (cur line : Str)
    (hc : st.current = some cur)
    (ho : st.open_brackets > 0)
    (hs : pyStrip line ≠ [])
    (hpn : isPageNumber (pyStrip line) = false)
    (hi : line.head? ≠ some ' ')
    (ht : line.head? ≠ some '\t') :
    joinStep st line =
      { blocks := st.blocks, current := some (cur ++ pyStrip line),
        open_brackets :=
          max 0 (st.open_brackets + (countChar '［' (pyStrip line) : Int)
                   - (countChar '］' (pyStrip line) : Int)) } := by
  simp [joinStep, hs, hpn, hc, hi, ht, ho]

/-- Witness for C3 (amended): the line ２ 局 matches the forced-new shape
(full-width digit then whitespace), yet with the ［ of `c3state` still
open and no indentation it is appended to the current block. -/
theorem extract_C3_amended_witness :
    joinStep c3state (("２ 局").toList) = ⟨[], some (("あ［２ 局").toList), 1⟩ :=
  (extract_C3_amended c3state (("あ［").toList) (("２ 局").toList)
    rfl (by decide) (by decide) (by decide) (by decide) (by decide)).trans (by decide)

/-- Character counts add over concatenation. -/
theorem countChar_append (c : Char) (a b : Str) :
    countChar c (a ++ b) = countChar c a + countChar c b := by
  simp [countChar, List.filter_append]

/-- Prepending a different character does not change a count. -/
theorem countChar_cons_ne (c d : Char) (s : Str) (h : d ≠ c) :
    countChar c (d :: s) = countChar c s := by
  simp [countChar, List.filter_cons, h]

/-- The angle balance of a merged page is the sum of the balances. -/
theorem angleDiff_merge (cur p : Str) :
    angleDiff (cur ++ '\n' :: p) = angleDiff cur + angleDiff p := by
  unfold angleDiff
  rw [countChar_append, countChar_append,
    countChar_cons_ne '＜' '\n' p (by decide), countChar_cons_ne '＞' '\n' p (by decide)]
  push_cast
  ring

/-- The merging loop always emits at least one page. -/
theorem mergePagesAux_ne_nil (l : List Str) :
    ∀ (cur : Str) (opn : Int), mergePagesAux cur opn l ≠ [] := by
  induction l with
  | nil => intro cur opn; simp [mergePagesAux]
  | cons p rest ih =>
    intro cur opn
    simp only [mergePagesAux]
    split
    · exact ih _ _
    · simp

/-- Invariant of the merging loop: when the running balance equals the
balance of the page under construction, every emitted page except the
last has at most as many ＜ as ＞. -/
theorem mergePagesAux_dropLast_le (l : List Str) :
    ∀ (cur : Str) (opn : Int), opn = angleDiff cur →
      ∀ q ∈ (mergePagesAux cur opn l).dropLast, countChar '＜' q ≤ countChar '＞' q := by
  induction l with
  | nil => intro cur opn _ q hq; simp [mergePagesAux] at hq
  | cons p rest ih =>
    intro cur opn hinv q hq
    simp only [mergePagesAux] at hq
    by_cases hop : opn > 0
    · rw [if_pos hop] at hq
      refine ih (cur ++ '\n' :: p) _ ?_ q hq
      rw [angleDiff_merge, hinv]
    · rw [if_neg hop] at hq
      rcases hme : mergePagesAux p (angleDiff p) rest with _ | ⟨x, xs⟩
      · exact absurd hme (mergePagesAux_ne_nil rest p (angleDiff p))
      · rw [hme] at hq
        have hq2 : q ∈ cur :: (x :: xs).dropLast := by
          simpa [List.dropLast] using hq
        rcases List.mem_cons.mp hq2 with hqc | hqtail
        · subst hqc
          have hle : angleDiff q ≤ 0 := by rw [← hinv]; omega
          unfold angleDiff at hle
          omega
        · have := ih p (angleDiff p) rfl q
          rw [hme] at this
          exact this hqtail

/-- C4 (amended): every page emitted by the merging step, except possibly
the last one, has at most as many ＜ as ＞ (a page with excess opens
absorbs following pages until its balance is no longer positive); the
original claim's exact-equality for *every* page fails, see the
counterexample. -/
theorem extract_C4_amended (pages : List Str) (q : Str)
    (hq : q ∈ (mergePages pages).dropLast) :
    countChar '＜' q ≤ countChar '＞' q := by
  cases pages with
  | nil => simp [mergePages] at hq
  | cons p rest => exact mergePagesAux_dropLast_le rest p (angleDiff p) rfl q hq

/-- Witness for C4 (amended): on the two balanced pages あ and い the
first emitted page is not the last and satisfies the bound. -/
theorem extract_C4_amended_witness :
    (("あ").toList) ∈ (mergePages [("あ").toList, ("い").toList]).dropLast ∧
    countChar '＜' (("あ").toList) ≤ countChar '＞' (("あ").toList) :=
  ⟨by decide,
   extract_C4_amended [("あ").toList, ("い").toList] (("あ").toList) (by decide)⟩

/-- C8: the engine is total by construction (every function of this
embedding is a total Lean function, so `parse_pdf`/`recover` return a
record list on every input, including malformed bracket nesting and
out-of-vocabulary range tokens); this theorem establishes the remaining
content of the claim: a block matching no classification rule
contributes no entry and changes no state beyond the unconditional
clearing of `prev_bureau_base`/`prev_bureau_full`. -/
theorem extract_C8_unrecognized_block (st : ParseState) (norm : Str) (nia : Bool)
    (h1 : angleMatch norm = none)
    (h2 : ministryHeaderMatch norm = none)
    (h3 : bareMinistryTest norm = false)
    (h4 : (match categoryMatch norm with
           | some c => !lastCharIn c ['局', '部', '会', '機', '関']
           | none => true) = true)
    (h5 : bracketMatch norm = none)
    (h6 : bareGuard norm = false) :
    classifyBlock st norm nia =
      ({ st with prev_bureau_base := [], prev_bureau_full := [] }, []) := by
  simp only [classifyBlock, h1]
  simp only [restOfRules, h2, h3, Bool.false_eq_true, if_false]
  cases hc : categoryMatch norm with
  | some c =>
    rw [hc] at h4
    simp only [Bool.not_eq_true'] at h4
    simp [h4, bracketAndBare, h5, bareRule, h6]
  | none => simp [bracketAndBare, h5, bareRule, h6]

/-- A classifier state with every component non-empty, to exhibit that an
unrecognized block clears exactly the two pending fields. -/
def c8state : ParseState :=
  ⟨("外務省").toList, ("内部部局").toList, ("防衛局").toList, ("九州防衛局１").toList,
   [("第一").toList], ("１").toList⟩

/-- Witness for C8: the block ！！！ matches no rule; classifying it emits
nothing and only clears the pending expansion fields. -/
theorem extract_C8_witness :
    classifyBlock c8state (("！！！").toList) true =
      ({ c8state with prev_bureau_base := [], prev_bureau_full := [] }, []) :=
  extract_C8_unrecognized_block c8state (("！！！").toList) true
    (by decide) (by decide) (by decide) (by decide) (by decide) (by decide)

/-- C9: expansion never suppresses the literal numbered record — in the
bureau-with-bracketed-sections rule, whenever the digit-suffix check
fires (the stripped form differs and ends in an organizational suffix)
and the pre-bracket text has length in [2,35], the entry whose bureau
is the original text with the trailing digits still attached is in the
rule's output; likewise the bare-bureau rule always emits the literal
entry whenever it fires at all. -/
theorem extract_C9_literal_entry_preserved :
    (∀ (st : ParseState) (norm g1 g2 : Str) (nia : Bool),
       bracketMatch norm = some (g1, g2) →
       strip_count (pyStrip g1) ≠ pyStrip g1 →
       ORG_ENDS (strip_count (pyStrip g1)) = true →
       2 ≤ (pyStrip g1).length → (pyStrip g1).length ≤ 35 →
       mkRow st.ministry st.category (pyStrip g1) [] [] ∈ (bracketAndBare st norm nia).2) ∧
    (∀ (st : ParseState) (norm : Str) (nia : Bool),
       bareGuard norm = true →
       strip_count norm ≠ norm →
       ORG_ENDS (strip_count norm) = true →
       mkRow st.ministry st.category norm [] [] ∈ (bareRule st norm nia).2) := by
  constructor
  · intro st norm g1 g2 nia hb hne horg hl1 hl2
    have hbr : pyStrip g1 ≠ [] := by
      intro hnil
      rw [hnil] at hl1
      simp at hl1
    simp only [bracketAndBare, hb]
    simp [hne, horg, hbr, hl1, hl2, List.mem_append]
  · intro st norm nia hbg hne horg
    simp only [bareRule, hbg]
    simp [hne, horg, List.mem_append]

/-- The classifier state of the sibling-carry test: cached prefixes 東北
and 関東 from the most recent expansion, count string ６. -/
def c1stateA : ParseState :=
  ⟨("警察庁").toList, [], [], [], [("東北").toList, ("関東").toList], ("６").toList⟩

/-- The same state after the carry has been applied once
(`last_count_str` invalidated). -/
def c1stateB : ParseState := { c1stateA with last_count_str := [] }

/-- A bare numbered bureau line. -/
def c1norm : Str := ("管区警察局６").toList

/-- A numbered bureau line with a bracketed section list. -/
def c1normBr : Str := ("管区警察局６［総務課］").toList

/-- Witness for C9: at the concrete numbered lines, both rules keep the
literal entry 管区警察局６ alongside the carried prefix entries. -/
theorem extract_C9_witness :
    mkRow c1stateA.ministry c1stateA.category c1norm [] [] ∈
      (bracketAndBare c1stateA c1normBr false).2 ∧
    mkRow c1stateA.ministry c1stateA.category c1norm [] [] ∈
      (bareRule c1stateA c1norm false).2 :=
  ⟨extract_C9_literal_entry_preserved.1 c1stateA c1normBr c1norm (("総務課").toList) false
     (by decide) (by decide) (by decide) (by decide) (by decide),
   extract_C9_literal_entry_preserved.2 c1stateA c1norm false
     (by decide) (by decide) (by decide)⟩

/-- The bare-bureau rule never revives an empty `last_count_str` (the
carry branch needs a non-empty equal count, and every other branch
leaves the field unchanged). -/
theorem bareRule_lcs_empty (st : ParseState) (norm : Str) (nia : Bool)
    (h : st.last_count_str = []) : (bareRule st norm nia).1.last_count_str = [] := by
  unfold bareRule
  dsimp only
  split_ifs <;> simp_all

/-- The bracket rule never revives an empty `last_count_str`. -/
theorem bracketAndBare_lcs_empty (st : ParseState) (norm : Str) (nia : Bool)
    (h : st.last_count_str = []) : (bracketAndBare st norm nia).1.last_count_str = [] := by
  unfold bracketAndBare
  split
  · dsimp only
    split_ifs <;> simp_all
  · exact bareRule_lcs_empty st norm nia h

/-- Rules 2–7 never revive an empty `last_count_str`. -/
theorem restOfRules_lcs_empty (st : ParseState) (norm : Str) (nia : Bool)
    (h : st.last_count_str = []) : (restOfRules st norm nia).1.last_count_str = [] := by
  unfold restOfRules
  repeat' split
  all_goals first
    | exact bracketAndBare_lcs_empty _ norm nia h
    | simp_all

/-- Any row of an optional literal-entry list has empty `expanded_from`. -/
theorem expanded_from_of_mem_lit_ite {b : Prop} [Decidable b] (m c x : Str) (r : Row)
    (hr : r ∈ if b then [mkRow m c x [] []] else []) : r.expanded_from = [] := by
  split at hr
  · rcases List.mem_singleton.mp hr with rfl
    rfl
  · simp at hr

/-- C1: sibling carry-over applies at most once.  Parts 1 and 3: in the
bare-bureau rule and in the bracket rule, when the line's trailing
digit suffix is non-empty and equals `last_count_str`, the lookahead is
not an angle-bracket line and `last_prefixes` is non-empty, the rule
emits one entry per cached prefix (bureau = prefix + stripped form,
empty section, `expanded_from` = the original raw name) and sets
`last_count_str` to the empty string.  Parts 2 and 4: once
`last_count_str` is empty, a later line with a (necessarily non-empty,
hence different) digit suffix does not emit cached-prefix entries and
instead stashes `(prev_bureau_base, prev_bureau_full)`. -/
theorem extract_C1_sibling_carry_once :
    (∀ (st : ParseState) (norm : Str) (nia : Bool),
       bareGuard norm = true →
       strip_count norm ≠ norm →
       ORG_ENDS (strip_count norm) = true →
       nia = false →
       st.last_prefixes ≠ [] →
       trailingDigits norm ≠ [] →
       trailingDigits norm = st.last_count_str →
       bareRule st norm nia =
         ({ st with last_count_str := [] },
          st.last_prefixes.map
            (fun pfx => mkRow st.ministry st.category (pfx ++ strip_count norm) [] norm) ++
            [mkRow st.ministry st.category norm [] []])) ∧
    (∀ (st : ParseState) (norm : Str) (nia : Bool),
       bareGuard norm = true →
       strip_count norm ≠ norm →
       ORG_ENDS (strip_count norm) = true →
       st.last_count_str = [] →
       trailingDigits norm ≠ [] →
       bareRule st norm nia =
         ({ st with prev_bureau_base := strip_count norm, prev_bureau_full := norm },
          [mkRow st.ministry st.category norm [] []])) ∧
    (∀ (st : ParseState) (norm g1 g2 : Str) (nia : Bool),
       bracketMatch norm = some (g1, g2) →
       strip_count (pyStrip g1) ≠ pyStrip g1 →
       ORG_ENDS (strip_count (pyStrip g1)) = true →
       nia = false →
       st.last_prefixes ≠ [] →
       trailingDigits (pyStrip g1) ≠ [] →
       trailingDigits (pyStrip g1) = st.last_count_str →
       ((bracketAndBare st norm nia).1 = { st with last_count_str := [] } ∧
        (bracketAndBare st norm nia).2.take st.last_prefixes.length =
          st.last_prefixes.map
            (fun pfx => mkRow st.ministry st.category (pfx ++ strip_count (pyStrip g1)) []
               (pyStrip g1)))) ∧
    (∀ (st : ParseState) (norm g1 g2 : Str) (nia : Bool),
       bracketMatch norm = some (g1, g2) →
       strip_count (pyStrip g1) ≠ pyStrip g1 →
       ORG_ENDS (strip_count (pyStrip g1)) = true →
       st.last_count_str = [] →
       trailingDigits (pyStrip g1) ≠ [] →
       ((bracketAndBare st norm nia).1 =
          { st with prev_bureau_base := strip_count (pyStrip g1),
                    prev_bureau_full := pyStrip g1 } ∧
        ∀ r ∈ (bracketAndBare st norm nia).2, r.expanded_from = [])) ∧
    (∀ (st : ParseState) (norm : Str) (nia : Bool),
       st.last_count_str = [] →
       (angleMatch norm = none ∨ st.prev_bureau_base = []) →
       (classifyBlock st norm nia).1.last_count_str = []) := by
  refine ⟨?_, ?_, ?_, ?_, ?_⟩
  · intro st norm nia hbg hne horg hnia hlp hcc hceq
    subst hnia
    have hy : st.last_count_str ≠ [] := by rw [← hceq]; exact hcc
    simp [bareRule, hbg, hne, horg, hlp, hcc, hceq, hy]
  · intro st norm nia hbg hne horg hlcs hcc
    have hx : trailingDigits norm ≠ st.last_count_str := by rw [hlcs]; exact hcc
    simp [bareRule, hbg, hne, horg, hx]
  · intro st norm g1 g2 nia hb hne horg hnia hlp hcc hceq
    subst hnia
    have hy : st.last_count_str ≠ [] := by rw [← hceq]; exact hcc
    simp only [bracketAndBare, hb]
    constructor
    · simp [hne, horg, hlp, hcc, hceq, hy]
    · simp only [hne, horg, hlp, hcc, hceq, hy, decide_not, ne_eq, not_false_eq_true,
        decide_eq_true_eq, Bool.not_false, Bool.and_self, Bool.true_and, and_self,
        if_true, if_neg, List.append_assoc]
      rw [show st.last_prefixes.length =
            (st.last_prefixes.map (fun pfx =>
               mkRow st.ministry st.category (pfx ++ strip_count (pyStrip g1)) []
                 (pyStrip g1))).length by simp]
      simp [hne, horg, hlp, hcc, hceq, hy, List.take_left]
  · intro st norm g1 g2 nia hb hne horg hlcs hcc
    have hx : trailingDigits (pyStrip g1) ≠ st.last_count_str := by rw [hlcs]; exact hcc
    have hinner : (!nia && decide (st.last_prefixes ≠ []) &&
        decide (trailingDigits (pyStrip g1) ≠ []) &&
        decide (trailingDigits (pyStrip g1) = st.last_count_str)) = false := by
      simp [hx]
    simp only [bracketAndBare, hb, hinner, Bool.false_eq_true, if_false]
    refine ⟨?_, ?_⟩
    · simp [hne, horg]
    · intro r hr
      simp only [hne, horg, decide_not, ne_eq, not_false_eq_true, decide_eq_true_eq,
        Bool.and_self, Bool.true_and, if_true, List.mem_append] at hr
      rcases hr with (hr0 | hr1) | hr2
      · simp at hr0
      · exact expanded_from_of_mem_lit_ite _ _ _ r hr1
      · rcases List.mem_map.mp hr2 with ⟨sec, _, hsec⟩
        rw [← hsec]
        rfl
  · intro st norm nia h hang
    unfold classifyBlock
    rcases hang with hang | hang
    · rw [hang]
      exact restOfRules_lcs_empty _ norm nia h
    · cases ha : angleMatch norm with
      | none => exact restOfRules_lcs_empty _ norm nia h
      | some content =>
        simp only [hang, ne_eq, not_true_eq_false, if_false]
        exact restOfRules_lcs_empty _ norm nia h

/-- Witness for C1 at the concrete line 管区警察局６ (and its bracketed
variant) with cached prefixes 東北, 関東 and count ６: the carry fires
once, emitting 東北管区警察局 and 関東管区警察局 and clearing
`last_count_str`; afterwards (state `c1stateB`) the same line stashes
`prev_bureau_base`/`prev_bureau_full` instead. -/
theorem extract_C1_witness :
    (bareRule c1stateA c1norm false =
      ({ c1stateA with last_count_str := [] },
       [mkRow (("警察庁").toList) [] (("東北管区警察局").toList) [] c1norm,
        mkRow (("警察庁").toList) [] (("関東管区警察局").toList) [] c1norm,
        mkRow (("警察庁").toList) [] c1norm [] []])) ∧
    (bareRule c1stateB c1norm false =
      ({ c1stateB with prev_bureau_base := ("管区警察局").toList, prev_bureau_full := c1norm },
       [mkRow (("警察庁").toList) [] c1norm [] []])) ∧
    ((bracketAndBare c1stateA c1normBr false).1 = { c1stateA with last_count_str := [] } ∧
     (bracketAndBare c1stateA c1normBr false).2.take 2 =
       [mkRow (("警察庁").toList) [] (("東北管区警察局").toList) [] c1norm,
        mkRow (("警察庁").toList) [] (("関東管区警察局").toList) [] c1norm]) ∧
    ((bracketAndBare c1stateB c1normBr false).1 =
       { c1stateB with prev_bureau_base := ("管区警察局").toList, prev_bureau_full := c1norm } ∧
     (mkRow (("警察庁").toList) [] c1norm [] []).expanded_from = []) ∧
    (classifyBlock c1stateB c1norm false).1.last_count_str = [] := by
  obtain ⟨h1, h2, h3, h4, h5⟩ := extract_C1_sibling_carry_once
  refine ⟨?_, ?_, ?_, ?_, ?_⟩
  · exact (h1 c1stateA c1norm false (by decide) (by decide) (by decide) rfl (by decide)
      (by decide) (by decide)).trans (by decide)
  · exact (h2 c1stateB c1norm false (by decide) (by decide) (by decide) rfl
      (by decide)).trans (by decide)
  · obtain ⟨ha, hb⟩ := h3 c1stateA c1normBr c1norm (("総務課").toList) false (by decide)
      (by decide) (by decide) rfl (by decide) (by decide) (by decide)
    exact ⟨ha.trans (by decide), hb.trans (by decide)⟩
  · obtain ⟨ha, hb⟩ := h4 c1stateB c1normBr c1norm (("総務課").toList) false (by decide)
      (by decide) (by decide) rfl (by decide)
    exact ⟨ha.trans (by decide),
      hb (mkRow (("警察庁").toList) [] c1norm [] []) (by decide)⟩
  · exact h5 c1stateB c1norm false rfl (Or.inl (by decide))

/-- Main invariant of the dedup loop: every emitted row has a key outside
`seen`, a non-empty ministry, and is the first row of the input with
its key. -/
theorem dedupAux_mem (l : List Row) :
    ∀ (seen : List (Str × Str × Str × Str)) (r : Row), r ∈ dedupAux seen l →
      rowKey r ∉ seen ∧ r.ministry ≠ [] ∧
      l.find? (fun x => decide (rowKey x = rowKey r)) = some r := by
  induction l with
  | nil => intro seen r hr; simp [dedupAux] at hr
  | cons a rest ih =>
    intro seen r hr
    simp only [dedupAux] at hr
    split at hr
    case isTrue ha =>
      rcases List.mem_cons.mp hr with rfl | hmem
      · refine ⟨ha.1, ha.2, ?_⟩
        simp [List.find?]
      · obtain ⟨hnot, hmin, hfind⟩ := ih _ r hmem
        have h1 : rowKey r ≠ rowKey a := fun hk =>
          hnot (by rw [hk]; exact List.mem_cons_self _ _)
        have h2 : rowKey r ∉ seen := fun hk => hnot (List.mem_cons_of_mem _ hk)
        refine ⟨h2, hmin, ?_⟩
        have h1s : rowKey a ≠ rowKey r := fun hk => h1 hk.symm
        simp [List.find?, h1s, hfind]
    case isFalse ha =>
      obtain ⟨hnot, hmin, hfind⟩ := ih _ r hr
      have hka : rowKey a ≠ rowKey r := by
        intro hk
        rcases Decidable.not_and_iff_or_not.mp ha with h | h
        · rw [not_not] at h
          exact hnot (hk ▸ h)
        · rw [not_not] at h
          have hmeq : a.ministry = r.ministry := congrArg Prod.fst hk
          exact hmin (hmeq ▸ h)
      refine ⟨hnot, hmin, ?_⟩
      simp [List.find?, hka, hfind]

/-- The dedup loop emits pairwise distinct keys. -/
theorem dedupAux_pairwise (l : List Row) :
    ∀ seen, (dedupAux seen l).Pairwise (fun a b => rowKey a ≠ rowKey b) := by
  induction l with
  | nil => intro seen; simp [dedupAux]
  | cons a rest ih =>
    intro seen
    simp only [dedupAux]
    split
    case isTrue ha =>
      refine List.Pairwise.cons ?_ (ih _)
      intro b hb hk
      exact (dedupAux_mem rest _ b hb).1 (by rw [← hk]; exact List.mem_cons_self _ _)
    case isFalse => exact ih _

/-- The dedup loop emits a sublist of its input (first-seen order). -/
theorem dedupAux_sublist (l : List Row) :
    ∀ seen, (dedupAux seen l).Sublist l := by
  induction l with
  | nil => intro seen; simp [dedupAux]
  | cons a rest ih =>
    intro seen
    simp only [dedupAux]
    split
    · exact (ih _).cons₂ a
    · exact (ih _).cons a

/-- C6: the published output set has pairwise distinct
`(ministry, category, bureau, section)` keys; no record has an empty
ministry; stripping the alias column recovers exactly the deduplicated
parse rows (so the published sequence is the deduplicated sequence, in
first-seen key order, a sublist of the emitted rows); and each
published record is the *first* emitted row bearing its key. -/
theorem extract_C6_published_invariants (pages : List Str) (ex : Str → Bool) :
    (recover pages ex).Pairwise (fun a b => rowKey a.toRow ≠ rowKey b.toRow) ∧
    (∀ r ∈ recover pages ex, r.toRow.ministry ≠ []) ∧
    ((recover pages ex).map (fun r => r.toRow) = dedup (parse_pdf pages)) ∧
    (dedup (parse_pdf pages)).Sublist (parse_pdf pages) ∧
    (∀ r ∈ recover pages ex,
       (parse_pdf pages).find? (fun x => decide (rowKey x = rowKey r.toRow)) =
         some r.toRow) := by
  have hmap : (recover pages ex).map (fun r => r.toRow) = dedup (parse_pdf pages) := by
    unfold recover
    rw [List.map_map]
    have hco : ((fun r : RowA => r.toRow) ∘ assignAlias ex) = id := funext (fun r => rfl)
    rw [hco, List.map_id]
  refine ⟨?_, ?_, hmap, dedupAux_sublist _ _, ?_⟩
  · unfold recover
    rw [List.pairwise_map]
    refine List.Pairwise.imp ?_ (dedupAux_pairwise (parse_pdf pages) [])
    intro a b h
    exact h
  · intro r hr
    unfold recover at hr
    rcases List.mem_map.mp hr with ⟨r0, hr0, rfl⟩
    exact (dedupAux_mem _ [] r0 hr0).2.1
  · intro r hr
    unfold recover at hr
    rcases List.mem_map.mp hr with ⟨r0, hr0, rfl⟩
    exact (dedupAux_mem _ [] r0 hr0).2.2

/-- Witness for C6: the first published record of the `c7pages` run is a
member, has non-empty ministry, and is the first emitted row with its
key. -/
theorem extract_C6_witness :
    c7row ∈ recover c7pages c7ex ∧
    c7row.toRow.ministry ≠ [] ∧
    (parse_pdf c7pages).find? (fun x => decide (rowKey x = rowKey c7row.toRow)) =
      some c7row.toRow := by
  obtain ⟨_, h2, _, _, h5⟩ := extract_C6_published_invariants c7pages c7ex
  exact ⟨by decide, h2 c7row (by decide), h5 c7row (by decide)⟩

/-- Replacing a pattern by nothing never lengthens a string. -/
theorem replaceAllNE_length_le (p1 : Char) (ps : Str) :
    ∀ (fuel : Nat) (s : Str), s.length ≤ fuel →
      (replaceAllNE p1 ps fuel s).length ≤ s.length := by
  intro fuel
  induction fuel with
  | zero =>
    intro s hs
    have hnil : s = [] := List.eq_nil_of_length_eq_zero (Nat.le_zero.mp hs)
    subst hnil
    simp [replaceAllNE]
  | succ fuel ih =>
    intro s hs
    cases s with
    | nil => simp [replaceAllNE]
    | cons c rest =>
      simp only [List.length_cons] at hs
      simp only [replaceAllNE]
      split
      · have hd : (rest.drop ps.length).length ≤ fuel := by
          simp only [List.length_drop]
          omega
        have := ih (rest.drop ps.length) hd
        simp only [List.length_drop] at this
        simp only [List.length_cons]
        omega
      · have := ih rest (by omega)
        simp only [List.length_cons]
        omega

/-- Replacing an actually occurring non-empty pattern strictly shortens
the string. -/
theorem replaceAllNE_length_lt (p1 : Char) (ps : Str) :
    ∀ (fuel : Nat) (s : Str), s.length ≤ fuel → containsSub (p1 :: ps) s = true →
      (replaceAllNE p1 ps fuel s).length < s.length := by
  intro fuel
  induction fuel with
  | zero =>
    intro s hs hc
    have hnil : s = [] := List.eq_nil_of_length_eq_zero (Nat.le_zero.mp hs)
    subst hnil
    simp [containsSub] at hc
  | succ fuel ih =>
    intro s hs hc
    cases s with
    | nil => simp [containsSub] at hc
    | cons c rest =>
      simp only [List.length_cons] at hs
      simp only [replaceAllNE]
      split
      case isTrue hpre =>
        have hd : (rest.drop ps.length).length ≤ fuel := by
          simp only [List.length_drop]
          omega
        have := replaceAllNE_length_le p1 ps fuel (rest.drop ps.length) hd
        simp only [List.length_drop] at this
        simp only [List.length_cons]
        omega
      case isFalse hpre =>
        have hc' : containsSub (p1 :: ps) rest = true := by
          simp only [containsSub, Bool.or_eq_true] at hc
          rcases hc with h | h
          · exact absurd h hpre
          · exact h
        have := ih rest (by omega) hc'
        simp only [List.length_cons]
        omega

/-- A bureau containing 地方 differs from its 地方-removed candidate. -/
theorem replaceAll_ne_of_contains (s : Str) (h : containsSub chihou s = true) :
    replaceAll chihou s ≠ s := by
  intro heq
  have hlt := replaceAllNE_length_lt '地' ['方'] s.length s le_rfl h
  rw [show replaceAllNE '地' ['方'] s.length s = replaceAll chihou s from rfl, heq] at hlt
  omega

/-- The alias value computed by the post-pass, as a single conditional:
the candidate when `expanded_from` is non-empty, the bureau contains
地方, the candidate exists and the bureau does not; empty otherwise
(the code's extra `candidate ≠ bureau` test is implied by containment,
`replaceAll_ne_of_contains`). -/
theorem assignAlias_bureau_alias (ex : Str → Bool) (r0 : Row) :
    (assignAlias ex r0).bureau_alias =
      if r0.expanded_from ≠ [] ∧ containsSub chihou r0.bureau = true ∧
         ex (replaceAll chihou r0.bureau) = true ∧ ex r0.bureau = false
      then replaceAll chihou r0.bureau else [] := by
  unfold assignAlias
  by_cases h2 : containsSub chihou r0.bureau = true
  · have h5 := replaceAll_ne_of_contains r0.bureau h2
    by_cases h1 : r0.expanded_from ≠ [] <;>
      by_cases h3 : ex (replaceAll chihou r0.bureau) = true <;>
        by_cases h4 : ex r0.bureau = false <;>
          simp [h1, h2, h3, h4, h5]
  · by_cases h1 : r0.expanded_from ≠ [] <;> simp [h1, h2]

/-- C7 (amended): for every record of the published output,
`bureau_alias` equals the 地方-removed candidate *when* `expanded_from`
is non-empty, the bureau contains 地方, the candidate exists
canonically and the bureau does not — and is empty in every other
case.  (The claim's "if and only if" direction fails when the
candidate itself is empty, see the counterexample.) -/
theorem extract_C7_amended (pages : List Str) (ex : Str → Bool) (r : RowA)
    (hr : r ∈ recover pages ex) :
    r.bureau_alias =
      if r.toRow.expanded_from ≠ [] ∧ containsSub chihou r.toRow.bureau = true ∧
         ex (replaceAll chihou r.toRow.bureau) = true ∧ ex r.toRow.bureau = false
      then replaceAll chihou r.toRow.bureau else [] := by
  unfold recover at hr
  rcases List.mem_map.mp hr with ⟨r0, _, rfl⟩
  exact assignAlias_bureau_alias ex r0

/-- Witness for C7 (amended) at the first record of the `c7pages` run. -/
theorem extract_C7_amended_witness :
    c7row ∈ recover c7pages c7ex ∧
    c7row.bureau_alias =
      (if c7row.toRow.expanded_from ≠ [] ∧ containsSub chihou c7row.toRow.bureau = true ∧
          c7ex (replaceAll chihou c7row.toRow.bureau) = true ∧
          c7ex c7row.toRow.bureau = false
       then replaceAll chihou c7row.toRow.bureau else []) :=
  ⟨by decide, extract_C7_amended c7pages c7ex c7row (by decide)⟩
